import Mathlib

/-!
# Verification of the incremental change-detection core
# (src/nightingale/notion_os_sweeper.mjs)

This file gives a shallow embedding of the change-detection core of the
sweeper script and proves/refutes the frozen claims about it.

Modelling conventions, used throughout:

* JavaScript strings are Lean `String`s.  The script compares ISO-8601
  timestamp strings with the JS operators `>=` and with
  `String.prototype.localeCompare`; both are modelled by code-unit
  lexicographic comparison (`strLe` below), which agrees with JS `>=` on
  the BMP characters appearing in ISO timestamps and identifiers.
* A JS value that may be `undefined`/`null`/missing is an `Option`.
  Every string field the script reads is consumed only through JS
  truthiness tests (`!x`, `x || y`, `x ? a : b`) or through an equality
  that is guarded by a truthiness test, so the empty string behaves
  exactly like an absent value everywhere the core touches it; the
  embedding therefore collapses "absent or empty" into `none`.
* The remote gateway (Notion) is an external collaborator.  It is
  modelled as the sequence of responses it gives to the successive HTTP
  calls of one run: a function from the call index (and requested page
  size, where the script computes one) to an `Except`-wrapped response.
  Cursors are opaque to the script (it only ever tests their presence),
  so advancing the cursor is modelled as advancing the call index.
* The JS `while` loops that page through the gateway have no intrinsic
  bound (a gateway that keeps answering `has_more` with empty result
  pages makes the script loop forever).  They are modelled with an
  explicit fuel parameter; exhausting the fuel yields the distinguished
  error `Err.loopLimit`, so a run that "succeeds" in the model is
  exactly a run that terminates successfully in JS.
* File-system effects: the script touches exactly one file (the state
  file).  The file system is modelled as the content of that file
  (`Option FileContent`); `fs.readFile` on an absent file throws, which
  the embedding returns as `Err.ioAbsent`.
-/

namespace Sweeper

/-! ## String comparison (JS code-unit order) -/

/-- Lexicographic (code-unit) order on character lists: the order JS uses
for its string relational operators. -/
def charListLe : List Char → List Char → Bool
  | [], _ => true
  | _ :: _, [] => false
  | a :: as, b :: bs => if a = b then charListLe as bs else decide (a < b)

/-- Strict lexicographic (code-unit) order on character lists. -/
def charListLt : List Char → List Char → Bool
  | [], [] => false
  | [], _ :: _ => true
  | _ :: _, [] => false
  | a :: as, b :: bs => if a = b then charListLt as bs else decide (a < b)

/-- JS string comparison s <= t (code-unit lexicographic). -/
def strLe (s t : String) : Bool := charListLe s.data t.data

/-- JS string comparison s < t (code-unit lexicographic). -/
def strLt (s t : String) : Bool := charListLt s.data t.data

/-! ## A stable comparator sort

Array.prototype.sort is required by the language specification to be
stable, and for a consistent comparator a stable sort's output is the
unique permutation that is ordered by the comparator and preserves the
input order of comparator-ties; every stable sorting algorithm therefore
produces the same output.  The embedding uses an explicit structurally
recursive top-down merge sort (fuel bounds the recursion depth; the
fall-through cases are never reached when the fuel is at least the list
length, and are chosen so that the result is a permutation of the input
for every fuel). -/

/-- Merge two lists, taking from the left list on ties (stability). -/
def mergeFuel (le : α → α → Bool) : Nat → List α → List α → List α
  | 0, xs, ys => xs ++ ys
  | _ + 1, [], ys => ys
  | _ + 1, x :: xs, [] => x :: xs
  | f + 1, x :: xs, y :: ys =>
    if le x y then x :: mergeFuel le f xs (y :: ys)
    else y :: mergeFuel le f (x :: xs) ys

/-- Top-down stable merge sort with explicit fuel: split the list into
its contiguous first and second halves, sort both, merge. -/
def msort (le : α → α → Bool) : Nat → List α → List α
  | _, [] => []
  | _, [a] => [a]
  | 0, l => l
  | f + 1, l =>
    let n := l.length / 2
    mergeFuel le l.length (msort le f (l.take n)) (msort le f (l.drop n))

/-- The stable comparator sort, with enough fuel for any input. -/
def sortStable (le : α → α → Bool) (l : List α) : List α :=
  msort le l.length l

/-! ## Data model -/

/-- The error taxonomy of one run.  `api` models a non-success response
thrown by notionFetch, `loopLimit` models a pagination loop that never
exits in JS (see the fuel convention in the header), the remaining
constructors model the explicit throws of the script. -/
inductive Err where
  | api (status : Nat) (msg : String)
  | loopLimit
  | missingDataSource (dbId : String)
  | missingConfig (keys : List String)
  | ioAbsent
  | parseError
deriving DecidableEq, Repr

/-- One rich-text fragment, reduced to its plain_text (the only field the
script reads). -/
abbrev RichText := String

/-- excerptFromRichText: concatenation of the plain_text fragments. -/
def excerptFromRichText (richText : List RichText) : String :=
  String.join richText

/-- One property value of a page, as far as pageTitleFromPage reads it:
its type tag and (for title properties) its rich-text content. -/
structure PropValue where
  type : String
  title : List RichText
deriving DecidableEq, Repr

/-- A page returned by the data-source query (an Item of the spec).
Timestamp and url fields follow the absent-or-empty ⇒ none convention. -/
structure Page where
  id : String
  created_time : Option String
  last_edited_time : Option String
  url : Option String := none
  properties : List PropValue := []
deriving DecidableEq, Repr

/-- pageTitleFromPage: the first title-typed property with a non-empty
excerpt, else the page id, else the literal Untitled. -/
def pageTitleFromPage (p : Page) : String :=
  match p.properties.find? (fun v => v.type = "title" && !(excerptFromRichText v.title).isEmpty) with
  | some v => excerptFromRichText v.title
  | none => if p.id.isEmpty then "Untitled" else p.id

/-- A raw comment from the comments endpoint (fields the script reads). -/
structure RawComment where
  id : String
  created_time : Option String
  created_by_name : Option String
  created_by_id : Option String
  rich_text : List RichText
deriving DecidableEq, Repr

/-- commentPlainText: the joined rich text of a comment. -/
def commentPlainText (c : RawComment) : String :=
  excerptFromRichText c.rich_text

/-- The slimmed-down comment record the report stores
(lines 216-221 of the script). -/
structure SlimComment where
  id : String
  created_time : Option String
  created_by : String
  text : String
deriving DecidableEq, Repr

/-- The per-comment projection of the report loop:
created_by falls back name → id → Unknown, text is truncated to 500. -/
def toSlim (c : RawComment) : SlimComment :=
  { id := c.id
    created_time := c.created_time
    created_by := c.created_by_name.getD (c.created_by_id.getD "Unknown")
    text := (commentPlainText c).take 500 }

/-- The four report groups of classifyItem.
A = NEW, B = UPDATED, C = COMMENTED, D = UNCHANGED. -/
inductive Group where
  | A | B | C | D
deriving DecidableEq, Repr

/-- classifyItem (lines 156-168): first non-empty comments, then seen,
then the created = edited test (which in JS is guarded by truthiness of
both timestamps), else updated. -/
def classifyItem (page : Page) (commentsSince : List SlimComment) (wasSeen : Bool) : Group :=
  if commentsSince.length ≠ 0 then .C
  else if wasSeen then .D
  else
    match page.created_time, page.last_edited_time with
    | some c, some e => if c = e then .A else .B
    | _, _ => .B

/-! ## Gateway responses and pagination -/

/-- Response of one data-source query call (notionFetch on
/v1/data_sources/id/query). -/
structure QueryResponse where
  results : List Page
  has_more : Bool
  next_cursor : Option String
deriving DecidableEq, Repr

/-- Response of one comments-listing call (notionFetch on /v1/comments). -/
structure CommentsResponse where
  results : List RawComment
  has_more : Bool
  next_cursor : Option String
deriving DecidableEq, Repr

/-- Response of the database retrieval call.  data_sources is reduced to
the list of its entries' ids (the only field read). -/
structure DbResponse where
  data_source_id : Option String
  data_sources : List String
  title : Option (List RichText)
deriving DecidableEq, Repr

/-- The data-source id extraction of getDatabaseAndDataSourceId:
db.data_source_id || db.data_sources[0].id. -/
def dataSourceIdOf (db : DbResponse) : Option String :=
  match db.data_source_id with
  | some i => some i
  | none => db.data_sources.head?

/-- PAGE_SIZE constant of the script (line 27). -/
def PAGE_SIZE : Nat := 50

/-- MAX_PAGES constant of the script (line 28).  Note: despite its name,
the query loop compares it against the number of accumulated RESULT
ITEMS, not against the number of fetched pages (line 107). -/
def MAX_PAGES : Nat := 200

/-- The body of the queryDataSource while-loop (lines 107-131).  The
gateway argument maps (call index, requested page size) to the response
of that call; the recursive call shifts the gateway by one so that call
index 0 is always the next call.  The loop guard
results.length < MAX_PAGES is tested before each iteration; fuel
exhaustion models JS divergence (header conventions). -/
def queryGo (gw : Nat → Nat → Except Err QueryResponse) (fuel : Nat)
    (acc : List Page) : Except Err (List Page) :=
  if acc.length ≥ MAX_PAGES then .ok acc
  else
    match fuel with
    | 0 => .error Err.loopLimit
    | Nat.succ f =>
      match gw 0 (min PAGE_SIZE (MAX_PAGES - acc.length)) with
      | .error e => .error e
      | .ok r =>
        let acc2 := acc ++ r.results
        if r.has_more = false then .ok acc2
        else if r.next_cursor.isNone then .ok acc2
        else queryGo (fun n ps => gw (n + 1) ps) f acc2

/-- queryDataSource (lines 104-133): page through the gateway starting
with an empty accumulator.  The editedSinceIso filter and the sort are
part of the request body, hence of the gateway model, not of this
function. -/
def queryDataSource (gw : Nat → Nat → Except Err QueryResponse) (fuel : Nat) :
    Except Err (List Page) :=
  queryGo gw fuel []

/-- The client-side comment filter of getCommentsSince (line 146):
keep when !sinceIso || !created || created >= sinceIso. -/
def commentKeep (sinceIso : Option String) (c : RawComment) : Bool :=
  match sinceIso, c.created_time with
  | none, _ => true
  | _, none => true
  | some s, some t => strLe s t

/-- The body of the getCommentsSince do-while loop (lines 138-152): fetch
a page, push the comments passing the filter, continue while has_more.
Same gateway-shifting and fuel conventions as queryGo. -/
def commentsGo (gw : Nat → Except Err CommentsResponse) (sinceIso : Option String)
    (fuel : Nat) (acc : List RawComment) : Except Err (List RawComment) :=
  match fuel with
  | 0 => .error Err.loopLimit
  | Nat.succ f =>
    match gw 0 with
    | .error e => .error e
    | .ok r =>
      let acc2 := acc ++ r.results.filter (commentKeep sinceIso)
      if r.has_more = false then .ok acc2
      else commentsGo (fun n => gw (n + 1)) sinceIso f acc2

/-- getCommentsSince (lines 135-154). -/
def getCommentsSince (gw : Nat → Except Err CommentsResponse)
    (sinceIso : Option String) (fuel : Nat) : Except Err (List RawComment) :=
  commentsGo gw sinceIso fuel []

/-! ## Checkpoint state, association-list maps -/

/-- A persisted per-surface seen map, in JS object key insertion order:
an association list of (page id, last seen timestamp). -/
abbrev SeenMap := List (String × String)

/-- JS object property assignment m[k] = v on an insertion-ordered map:
an existing key keeps its position and gets the new value, a new key is
appended. -/
def setKV {α : Type} : List (String × α) → String → α → List (String × α)
  | [], k, v => [(k, v)]
  | p :: rest, k, v => if p.1 = k then (k, v) :: rest else p :: setKV rest k v

/-- JS object property read m[k]. -/
def lookupKV {α : Type} : List (String × α) → String → Option α
  | [], _ => none
  | p :: rest, k => if p.1 = k then some p.2 else lookupKV rest k

/-- The persisted checkpoint (state file).  Unknown extra fields of the
JSON file are not modelled (no claim concerns them).  The seenIds field
is modelled as always present: a state file lacking it entirely would
make line 270 of the script throw on the very first commit, and every
state file the script itself writes has it. -/
structure StateJson where
  lastRunIso : Option String
  seenIds : List (String × SeenMap)
deriving DecidableEq, Repr

/-- Parsed-or-not content of the state file. -/
inductive FileContent where
  | invalid
  | valid (s : StateJson)
deriving DecidableEq, Repr

/-- readJson (lines 34-37) applied to the state file: fs.readFile throws
on an absent file (modelled ioAbsent), JSON.parse throws on invalid
content (modelled parseError). -/
def readJson : Option FileContent → Except Err StateJson
  | none => .error Err.ioAbsent
  | some .invalid => .error Err.parseError
  | some (.valid s) => .ok s

/-- On-disk state relevant to writeJson (lines 39-42): whether the parent
directory exists and the content of the target file. -/
structure DiskState where
  dirExists : Bool
  file : Option String
deriving DecidableEq, Repr

/-- The sequence of observable on-disk states of writeJson (lines 39-42):
initial state, after fs.mkdir recursive, after fs.writeFile has opened
the file with flag w (which truncates it), after the write completed.
Node's fs.writeFile writes in place with flag w; there is no temp file
and no rename, so the truncated intermediate state is observable by a
crash or concurrent reader. -/
def writeJsonStates (d : DiskState) (contents : String) : List DiskState :=
  [d,
   { d with dirExists := true },
   { dirExists := true, file := some "" },
   { dirExists := true, file := some contents }]

/-! ## Report -/

/-- One classified item of the report (lines 225-233). -/
structure ReportItem where
  id : String
  title : String
  url : Option String
  created_time : Option String
  last_edited_time : Option String
  group : Group
  commentsSinceLastRun : List SlimComment
deriving DecidableEq, Repr

/-- The four group lists of one surface (line 207). -/
structure Groups where
  A : List ReportItem
  B : List ReportItem
  C : List ReportItem
  D : List ReportItem
deriving DecidableEq, Repr

/-- The concatenation of the four groups in the order the commit loop
walks them (line 261). -/
def groupsConcat (g : Groups) : List ReportItem :=
  g.A ++ g.B ++ g.C ++ g.D

/-- The totals block of one surface report (lines 244-250). -/
structure Totals where
  queriedPages : Nat
  A : Nat
  B : Nat
  C : Nat
  D : Nat
deriving DecidableEq, Repr

/-- One surface's report entry (lines 239-252). -/
structure SurfaceReport where
  surfaceName : String
  databaseId : String
  dataSourceId : String
  databaseTitle : Option String
  totals : Totals
  groups : Groups
deriving DecidableEq, Repr

/-- The whole report (lines 190-194), keyed by surface key in bySurface. -/
structure Report where
  ranAtIso : String
  lastRunIso : Option String
  bySurface : List (String × SurfaceReport)
deriving DecidableEq, Repr

/-! ## Surfaces and configuration -/

/-- One configured surface (lines 177-181). -/
structure Surface where
  key : String
  name : String
  dbId : Option String
  seenKey : String
deriving DecidableEq, Repr

/-- The three database ids read from the environment (lines 23-25). -/
structure Config where
  tasksDbId : Option String
  eventsQueueDbId : Option String
  importsQueueDbId : Option String
deriving DecidableEq, Repr

/-- The fixed surface list of main (lines 177-181). -/
def mkSurfaces (cfg : Config) : List Surface :=
  [{ key := "Tasks", name := "Tasks DB", dbId := cfg.tasksDbId, seenKey := "Tasks" },
   { key := "EventsQueue", name := "Events Queue DB", dbId := cfg.eventsQueueDbId, seenKey := "EventsQueue" },
   { key := "ImportsQueue", name := "Imports Queue DB", dbId := cfg.importsQueueDbId, seenKey := "ImportsQueue" }]

/-! ## Scanning one surface -/

/-- The remote gateway of one run, as the responses to the successive
calls the script makes (header conventions).  query is keyed by
data-source id and the sinceIso filter sent in the request body;
comments is keyed by the block (page) id. -/
structure Gateway where
  database : String → Except Err DbResponse
  query : String → Option String → Nat → Nat → Except Err QueryResponse
  comments : String → Nat → Except Err CommentsResponse

/-- Everything one surface scan gathers before aggregation
(lines 202-221): the database record, the resolved data-source id, and
each page paired with its fetched comments-since list. -/
structure ScannedSurface where
  database : DbResponse
  dataSourceId : String
  pagesWithComments : List (Page × List RawComment)
deriving Repr

/-- The per-surface scanning prefix of the main loop (lines 202-204 and
the per-page comment fetch of line 215): resolve the data source, page
through the query, fetch each page's comments.  Any gateway error (and
the missing-data-source throw of lines 96-99) aborts the scan. -/
def scanSurface (gw : Gateway) (fuel : Nat) (sinceIso : Option String)
    (dbId : String) : Except Err ScannedSurface := do
  let db ← gw.database dbId
  match dataSourceIdOf db with
  | none => throw (Err.missingDataSource dbId)
  | some dsId => do
    let pages ← queryDataSource (gw.query dsId sinceIso) fuel
    let pcs ← pages.mapM (fun p => do
      let cs ← getCommentsSince (gw.comments p.id) sinceIso fuel
      pure (p, cs))
    pure { database := db, dataSourceId := dsId, pagesWithComments := pcs }

/-- Scan every configured surface in order, keyed by surface key
(the loop of line 197 up to its aggregation part). -/
def scanAll (gw : Gateway) (fuel : Nat) (sinceIso : Option String)
    (surfaces : List Surface) : Except Err (List (String × ScannedSurface)) :=
  surfaces.mapM (fun s => do
    let sc ← scanSurface gw fuel sinceIso (s.dbId.getD "")
    pure (s.key, sc))

/-! ## Report building (aggregation) -/

/-- The per-page aggregation of the main loop (lines 209-236): slim the
comments, look up the seen set, classify, build the report item. -/
def buildItems (seen : SeenMap) (pcs : List (Page × List RawComment)) :
    List ReportItem :=
  pcs.map (fun pc =>
    let p := pc.1
    let slim := pc.2.map toSlim
    let wasSeen := (lookupKV seen p.id).isSome
    { id := p.id
      title := pageTitleFromPage p
      url := p.url
      created_time := p.created_time
      last_edited_time := p.last_edited_time
      group := classifyItem p slim wasSeen
      commentsSinceLastRun := slim })

/-- Partition the items into the four groups; pushing in iteration order
(line 236) makes each group the order-preserving filter of the items. -/
def buildGroups (items : List ReportItem) : Groups :=
  { A := items.filter (fun it => it.group = Group.A)
    B := items.filter (fun it => it.group = Group.B)
    C := items.filter (fun it => it.group = Group.C)
    D := items.filter (fun it => it.group = Group.D) }

/-- One surface's report entry (lines 239-252).  databaseId is the
configured id (present whenever main reaches this point). -/
def buildSurfaceReport (s : Surface) (seen : SeenMap) (sc : ScannedSurface) :
    SurfaceReport :=
  let items := buildItems seen sc.pagesWithComments
  let g := buildGroups items
  { surfaceName := s.name
    databaseId := s.dbId.getD ""
    dataSourceId := sc.dataSourceId
    databaseTitle := sc.database.title.map excerptFromRichText
    totals := { queriedPages := sc.pagesWithComments.length,
                A := g.A.length, B := g.B.length, C := g.C.length, D := g.D.length }
    groups := g }

/-- The Report Builder: aggregate the scan results into the report
(lines 190-253).  The scan results are consumed only through key lookup
(report.bySurface[s.key] = ...), never through their arrival order. -/
def buildReport (surfaces : List Surface) (state : StateJson)
    (scans : List (String × ScannedSurface)) (now : String)
    (lastRun : Option String) : Report :=
  { ranAtIso := now
    lastRunIso := lastRun
    bySurface := surfaces.filterMap (fun s =>
      (lookupKV scans s.key).map (fun sc =>
        (s.key, buildSurfaceReport s ((lookupKV state.seenIds s.seenKey).getD []) sc))) }

/-! ## Checkpoint committer -/

/-- RETENTION_CAP: the literal 2000 of line 269. -/
def RETENTION_CAP : Nat := 2000

/-- The sort comparator of line 268, as a may-come-before relation:
JS sorts ascending in comparator order, and the comparator
(a, b) => String(b[1]).localeCompare(a[1]) orders by timestamp
descending.  localeCompare is modelled as code-unit comparison (header
conventions).  On ties the relation holds both ways, and JS sort is
stable, as is sortStable. -/
def seenCmpLe (a b : String × String) : Bool := strLe b.2 a.2

/-- The keep map bounded step of lines 267-270: sort the entries by
timestamp descending (stable) and keep the first 2000. -/
def truncateSeen (cur : SeenMap) : SeenMap :=
  (sortStable seenCmpLe cur).take RETENTION_CAP

/-- The merge step of lines 258-265 for one surface: for every item of
every group, in group order A, B, C, D, set
cur[item.id] := item.last_edited_time || ranAt. -/
def mergeSurfaceSeen (prev : SeenMap) (g : Groups) (ranAt : String) : SeenMap :=
  (groupsConcat g).foldl (fun m it => setKV m it.id (it.last_edited_time.getD ranAt)) prev

/-- The full commit of one surface (lines 258-270). -/
def commitSurface (prev : SeenMap) (g : Groups) (ranAt : String) : SeenMap :=
  truncateSeen (mergeSurfaceSeen prev g ranAt)

/-- The Checkpoint Committer (lines 255-271): advance lastRunIso to the
report's run timestamp and commit each surface's seen map, leaving any
other keys of seenIds untouched. -/
def commitState (state : StateJson) (surfaces : List Surface) (report : Report) :
    StateJson :=
  { lastRunIso := some report.ranAtIso
    seenIds := surfaces.foldl (fun m s =>
      let cur := (lookupKV m s.seenKey).getD []
      let g := ((lookupKV report.bySurface s.key).map SurfaceReport.groups).getD ⟨[], [], [], []⟩
      setKV m s.seenKey (commitSurface cur g report.ranAtIso)) state.seenIds }

/-! ## The whole run -/

/-- The computation of main between the state read and the state write
(lines 177-271): configured surfaces, missing-id check, scans, report,
next checkpoint.  now is the wall-clock timestamp captured at line 191.
No file-system effect occurs in this span of the script. -/
def mainBody (gw : Gateway) (fuel : Nat) (now : String) (cfg : Config)
    (state : StateJson) : Except Err (Report × StateJson) := do
  let surfaces := mkSurfaces cfg
  let missing := (surfaces.filter (fun s => s.dbId.isNone)).map (fun s => s.key)
  if missing.isEmpty = false then throw (Err.missingConfig missing)
  let lastRunIso := state.lastRunIso
  let scans ← scanAll gw fuel lastRunIso surfaces
  let report := buildReport surfaces state scans now lastRunIso
  let nextState := commitState state surfaces report
  pure (report, nextState)

/-- main (lines 170-277) acting on the state file: read the checkpoint,
run the body, and only on full success replace the file with the next
checkpoint (writeJson at line 276 is the sole write of the run; its
byte-level behaviour is modelled separately by writeJsonStates).
Returns the final file content together with the run's outcome. -/
def runAndPersist (gw : Gateway) (fuel : Nat) (now : String) (cfg : Config)
    (fs : Option FileContent) : Option FileContent × Except Err Report :=
  match readJson fs with
  | .error e => (fs, .error e)
  | .ok state =>
    match mainBody gw fuel now cfg state with
    | .error e => (fs, .error e)
    | .ok (report, nextState) => (some (.valid nextState), .ok report)

/-! ## Definitions written from the wording of the specification

These are NOT translations of the source; each follows the words of a
spec sentence so that a refutation can compare the source's behaviour
against the behaviour the spec describes. -/

/-- Modelled from the spec: "dropping the entries with the oldest
timestamps first, with ties broken by identifier, descending": sort by
timestamp descending with identifier-descending tiebreak and keep the
cap-count first entries. -/
def specTieLe (a b : String × String) : Bool :=
  if a.2 = b.2 then strLe b.1 a.1 else strLe b.2 a.2

/-- Modelled from the spec: retention-cap truncation with the spec's
identifier-descending tiebreak. -/
def truncateSeenSpec (cur : SeenMap) : SeenMap :=
  (sortStable specTieLe cur).take RETENTION_CAP

/-- Modelled from the spec: the pagination loop of the claim, which
"stops only when the gateway reports no further pages or when an overall
page-count safety cap of 200 pages is reached", with the configured page
size requested on every call.  The fuel is the remaining page budget, so
running out of fuel is exactly reaching the 200-page cap, which the
claim says is not an error. -/
def querySpecGo (gw : Nat → Nat → Except Err QueryResponse) :
    Nat → List Page → Except Err (List Page)
  | 0, acc => .ok acc
  | Nat.succ f, acc =>
    match gw 0 PAGE_SIZE with
    | .error e => .error e
    | .ok r =>
      let acc2 := acc ++ r.results
      if r.has_more = false then .ok acc2
      else querySpecGo (fun n ps => gw (n + 1) ps) f acc2

/-- Modelled from the spec: queryDataSource as the claim describes it
(a 200-PAGE cap rather than the source's 200-item budget). -/
def queryDataSourceSpec (gw : Nat → Nat → Except Err QueryResponse) :
    Except Err (List Page) :=
  querySpecGo gw MAX_PAGES []

/-- Modelled from the spec: the comment filter of the claim, "keeping
exactly the comments whose createdAt is greater than or equal to the
since watermark (when a watermark is present)".  A comment without a
createdAt is not one whose createdAt is ≥ the watermark, so it is
dropped when a watermark is present. -/
def commentKeepSpec (sinceIso : Option String) (c : RawComment) : Bool :=
  match sinceIso, c.created_time with
  | none, _ => true
  | some _, none => false
  | some s, some t => strLe s t

/-! ## Concrete inputs used by witnesses and counterexamples -/

/-- 2001 pairwise distinct two-character identifiers, increasing in
code-unit order with the index. -/
def idOf (i : Nat) : String :=
  String.mk [Char.ofNat (65 + i / 50), Char.ofNat (65 + i % 50)]

/-- Pairwise distinct identifiers that are strictly increasing in
code-unit order: the identifier of index i is the string of i copies of
the letter a (a proper prefix of every later identifier). -/
def uid (i : Nat) : String :=
  String.mk (List.replicate i (Char.ofNat 97))

/-- A seen map of 2001 entries, all carrying the same timestamp, in
identifier-ascending insertion order. -/
def exSeen2001 : SeenMap :=
  (List.range 2001).map (fun i => (uid i, "T"))

/-- A minimal page with the given index as identifier. -/
def pg (i : Nat) : Page :=
  { id := idOf i, created_time := none, last_edited_time := none }

/-- A gateway query endpoint holding 250 items in pages of 50: call n
returns items 50n..50n+49, with has_more on every call but the fifth. -/
def gwBig : Nat → Nat → Except Err QueryResponse := fun n _ =>
  .ok { results := (List.range 50).map (fun j => pg (50 * n + j))
        has_more := decide (n < 4)
        next_cursor := if n < 4 then some "cursor" else none }

/-- A gateway query endpoint holding 120 items: it honours the requested
page size, answering call n with the items from 50n up to the requested
size, and reports has_more until the items run out. -/
def gw120 : Nat → Nat → Except Err QueryResponse := fun n ps =>
  .ok { results := (List.range (min ps (120 - 50 * n))).map (fun j => pg (50 * n + j))
        has_more := decide (50 * n + ps < 120)
        next_cursor := if 50 * n + ps < 120 then some "cursor" else none }

/-- The 120 items gw120 holds. -/
def pages120 : List Page := (List.range 120).map pg

/-- A comment with no created_time. -/
def cNoTime : RawComment :=
  { id := "c1", created_time := none, created_by_name := some "ada",
    created_by_id := none, rich_text := ["hi"] }

/-- A single-page comment listing containing only cNoTime. -/
def gwCommentsOne : Nat → Except Err CommentsResponse := fun _ =>
  .ok { results := [cNoTime], has_more := false, next_cursor := none }

/-- A well-formed pagination chain: every response announces a further
page except the last one. -/
def goodChain : List CommentsResponse → Bool
  | [] => false
  | [r] => !r.has_more
  | r :: rest => r.has_more && goodChain rest

/-- The comment endpoint answering call n with the n-th element of a
fixed response list (d beyond the end, never reached on a goodChain). -/
def gwOfPages (pages : List CommentsResponse) (d : CommentsResponse) :
    Nat → Except Err CommentsResponse :=
  fun n => .ok (pages.getD n d)

/-- A comment created before the example watermark wm. -/
def cEarly : RawComment :=
  { id := "c-early", created_time := some "2024-01-01", created_by_name := none,
    created_by_id := some "u1", rich_text := ["old"] }

/-- A comment created after the example watermark wm. -/
def cLate : RawComment :=
  { id := "c-late", created_time := some "2024-03-01", created_by_name := some "ada",
    created_by_id := none, rich_text := ["new"] }

/-- A two-page comment chain: first page announces more, second is last. -/
def chainPages : List CommentsResponse :=
  [{ results := [cEarly, cLate], has_more := true, next_cursor := some "c1" },
   { results := [cLate], has_more := false, next_cursor := none }]

/-- A configuration with all three database ids present. -/
def cfgAll : Config :=
  { tasksDbId := some "db-tasks", eventsQueueDbId := some "db-events",
    importsQueueDbId := some "db-imports" }

/-- An empty first-run-style checkpoint. -/
def stEmpty : StateJson := { lastRunIso := none, seenIds := [] }

/-- A gateway whose every call fails with an API error. -/
def gwErr : Gateway :=
  { database := fun _ => .error (Err.api 500 "boom")
    query := fun _ _ _ _ => .error (Err.api 500 "boom")
    comments := fun _ _ => .error (Err.api 500 "boom") }

/-- A database response resolving to one data source. -/
def dbrW : DbResponse :=
  { data_source_id := none, data_sources := ["ds-1"], title := some ["My DB"] }

/-- A scanned surface with a single never-seen page and no comments. -/
def scW1 : ScannedSurface :=
  { database := dbrW, dataSourceId := "ds-1",
    pagesWithComments := [({ id := "p1", created_time := some "2024-02-02",
                             last_edited_time := some "2024-02-02" }, [])] }

/-- A scanned surface with no pages. -/
def scW2 : ScannedSurface :=
  { database := dbrW, dataSourceId := "ds-2", pagesWithComments := [] }

/-- Two scan-result association lists that map the same keys to the same
scans but arrive in opposite orders. -/
def arrivalsA : List (String × ScannedSurface) :=
  [("Tasks", scW1), ("EventsQueue", scW2)]

/-- The opposite arrival order of arrivalsA. -/
def arrivalsB : List (String × ScannedSurface) :=
  [("EventsQueue", scW2), ("Tasks", scW1)]

/-- A classified NEW item with an edit timestamp. -/
def itemA : ReportItem :=
  { id := "page-a", title := "A", url := none, created_time := some "2024-02-01",
    last_edited_time := some "2024-02-01", group := Group.A, commentsSinceLastRun := [] }

/-- A classified UPDATED item with no edit timestamp (fallback case). -/
def itemB : ReportItem :=
  { id := "page-b", title := "B", url := none, created_time := some "2024-01-01",
    last_edited_time := none, group := Group.B, commentsSinceLastRun := [] }

/-- A small group structure holding itemA and itemB. -/
def groupsW : Groups := { A := [itemA], B := [itemB], C := [], D := [] }

/-- An unseen page whose two timestamps are equal. -/
def pgEq : Page :=
  { id := "pg-eq", created_time := some "2024-02-01T10:00:00.000Z",
    last_edited_time := some "2024-02-01T10:00:00.000Z" }

/-- An unseen page edited strictly after creation. -/
def pgLt : Page :=
  { id := "pg-lt", created_time := some "2024-02-01T10:00:00.000Z",
    last_edited_time := some "2024-02-03T08:00:00.000Z" }

/-- An unseen page with no creation timestamp. -/
def pgNoCreate : Page :=
  { id := "pg-none", created_time := none,
    last_edited_time := some "2024-02-03T08:00:00.000Z" }

/-! ## Helper lemmas: string comparison -/

theorem charListLe_refl : ∀ l : List Char, charListLe l l = true
  | [] => rfl
  | a :: as => by simp [charListLe, charListLe_refl as]

theorem strLe_refl (s : String) : strLe s s = true :=
  charListLe_refl s.data

theorem charListLe_trans : ∀ l₁ l₂ l₃ : List Char,
    charListLe l₁ l₂ = true → charListLe l₂ l₃ = true → charListLe l₁ l₃ = true
  | [], _, _, _, _ => rfl
  | _ :: _, [], _, h₁, _ => by simp [charListLe] at h₁
  | _ :: _, _ :: _, [], _, h₂ => by simp [charListLe] at h₂
  | a :: as, b :: bs, c :: cs, h₁, h₂ => by
    simp only [charListLe] at h₁ h₂ ⊢
    by_cases hab : a = b
    · subst hab
      by_cases hbc : a = c
      · subst hbc
        simp only [if_pos rfl] at h₁ h₂ ⊢
        exact charListLe_trans as bs cs h₁ h₂
      · simpa [hbc] using h₂
    · by_cases hbc : b = c
      · subst hbc
        simpa [hab] using h₁
      · simp only [if_neg hab] at h₁
        simp only [if_neg hbc] at h₂
        have hab' : a < b := of_decide_eq_true h₁
        have hbc' : b < c := of_decide_eq_true h₂
        have hac : a < c := lt_trans hab' hbc'
        simp [ne_of_lt hac, hac]

theorem charListLe_total : ∀ l₁ l₂ : List Char,
    charListLe l₁ l₂ = true ∨ charListLe l₂ l₁ = true
  | [], _ => Or.inl rfl
  | _ :: _, [] => Or.inr rfl
  | a :: as, b :: bs => by
    by_cases hab : a = b
    · subst hab
      rcases charListLe_total as bs with h | h
      · exact Or.inl (by simpa [charListLe] using h)
      · exact Or.inr (by simpa [charListLe] using h)
    · rcases lt_trichotomy a b with h | h | h
      · exact Or.inl (by simp [charListLe, hab, h])
      · exact absurd h hab
      · exact Or.inr (by simp [charListLe, Ne.symm hab, h])

theorem strLe_trans {s t u : String} (h₁ : strLe s t = true) (h₂ : strLe t u = true) :
    strLe s u = true :=
  charListLe_trans s.data t.data u.data h₁ h₂

theorem strLe_total (s t : String) : strLe s t = true ∨ strLe t s = true :=
  charListLe_total s.data t.data

theorem charListLe_replicate (c : Char) :
    ∀ i j : Nat, charListLe (List.replicate i c) (List.replicate j c) = decide (i ≤ j)
  | 0, j => by simp [charListLe]
  | i + 1, 0 => by simp [charListLe, List.replicate_succ]
  | i + 1, j + 1 => by
    simp only [List.replicate_succ, charListLe, if_pos rfl, charListLe_replicate c i j]
    simp [Nat.succ_le_succ_iff]

theorem uid_le (i j : Nat) : strLe (uid i) (uid j) = decide (i ≤ j) :=
  charListLe_replicate (Char.ofNat 97) i j

theorem uid_inj {i j : Nat} (h : uid i = uid j) : i = j := by
  have h₁ : strLe (uid i) (uid j) = true := h ▸ strLe_refl (uid i)
  have h₂ : strLe (uid j) (uid i) = true := h ▸ strLe_refl (uid i)
  rw [uid_le] at h₁ h₂
  exact Nat.le_antisymm (of_decide_eq_true h₁) (of_decide_eq_true h₂)

theorem uid_not_le {i j : Nat} (h : i < j) : strLe (uid j) (uid i) = false := by
  rw [uid_le]
  simpa using h

/-! ## Helper lemmas: the stable sort -/

theorem mergeFuel_perm (le : α → α → Bool) :
    ∀ (f : Nat) (xs ys : List α), List.Perm (mergeFuel le f xs ys) (xs ++ ys)
  | 0, _, _ => List.Perm.refl _
  | _ + 1, [], ys => by simp [mergeFuel]
  | _ + 1, _ :: _, [] => by simp [mergeFuel]
  | f + 1, x :: xs, y :: ys => by
    simp only [mergeFuel]
    cases h : le x y
    · simp only [h, Bool.false_eq_true, if_false]
      exact ((mergeFuel_perm le f (x :: xs) ys).cons y).trans
        (@List.perm_middle _ y (x :: xs) ys).symm
    · simpa [h] using (mergeFuel_perm le f xs (y :: ys)).cons x

theorem msort_perm (le : α → α → Bool) :
    ∀ (f : Nat) (l : List α), List.Perm (msort le f l) l
  | _, [] => by simp [msort]
  | _, [a] => by simp [msort]
  | 0, _ :: _ :: _ => List.Perm.refl _
  | f + 1, a :: b :: t => by
    set l := a :: b :: t
    simp only [msort]
    refine (mergeFuel_perm le l.length _ _).trans ?_
    refine ((msort_perm le f (l.take (l.length / 2))).append
      (msort_perm le f (l.drop (l.length / 2)))).trans ?_
    exact (List.take_append_drop _ _) ▸ List.Perm.refl _

theorem length_msort (le : α → α → Bool) (f : Nat) (l : List α) :
    (msort le f l).length = l.length :=
  (msort_perm le f l).length_eq

theorem mem_msort {le : α → α → Bool} {f : Nat} {l : List α} {a : α} :
    a ∈ msort le f l ↔ a ∈ l :=
  (msort_perm le f l).mem_iff

theorem mergeFuel_pairwise (le : α → α → Bool)
    (htrans : ∀ a b c, le a b = true → le b c = true → le a c = true)
    (htotal : ∀ a b, le a b = true ∨ le b a = true) :
    ∀ (f : Nat) (xs ys : List α), xs.length + ys.length ≤ f →
      xs.Pairwise (fun a b => le a b = true) → ys.Pairwise (fun a b => le a b = true) →
      (mergeFuel le f xs ys).Pairwise (fun a b => le a b = true)
  | 0, xs, ys, hf, hxs, hys => by
    have hx : xs = [] := List.eq_nil_of_length_eq_zero (by omega)
    have hy : ys = [] := List.eq_nil_of_length_eq_zero (by omega)
    subst hx; subst hy
    simp [mergeFuel]
  | _ + 1, [], ys, _, _, hys => by simpa [mergeFuel] using hys
  | _ + 1, x :: xs, [], _, hxs, _ => by simpa [mergeFuel] using hxs
  | f + 1, x :: xs, y :: ys, hf, hxs, hys => by
    rw [List.pairwise_cons] at hxs hys
    obtain ⟨hx, hxs⟩ := hxs
    obtain ⟨hy, hys⟩ := hys
    simp only [mergeFuel]
    cases h : le x y
    · have hyx : le y x = true := (htotal x y).resolve_left (by simp [h])
      simp only [Bool.false_eq_true, if_false]
      rw [List.pairwise_cons]
      constructor
      · intro z hz
        rw [(mergeFuel_perm le f (x :: xs) ys).mem_iff, List.mem_append] at hz
        rcases hz with hz | hz
        · rcases List.mem_cons.mp hz with rfl | hz
          · exact hyx
          · exact htrans y x z hyx (hx z hz)
        · exact hy z hz
      · refine mergeFuel_pairwise le htrans htotal f (x :: xs) ys (by simp at hf ⊢; omega) ?_ hys
        rw [List.pairwise_cons]
        exact ⟨hx, hxs⟩
    · simp only [if_true]
      rw [List.pairwise_cons]
      constructor
      · intro z hz
        rw [(mergeFuel_perm le f xs (y :: ys)).mem_iff, List.mem_append] at hz
        rcases hz with hz | hz
        · exact hx z hz
        · rcases List.mem_cons.mp hz with rfl | hz
          · exact h
          · exact htrans x y z h (hy z hz)
      · refine mergeFuel_pairwise le htrans htotal f xs (y :: ys) (by simp at hf ⊢; omega) hxs ?_
        rw [List.pairwise_cons]
        exact ⟨hy, hys⟩

theorem msort_pairwise (le : α → α → Bool)
    (htrans : ∀ a b c, le a b = true → le b c = true → le a c = true)
    (htotal : ∀ a b, le a b = true ∨ le b a = true) :
    ∀ (f : Nat) (l : List α), l.length ≤ f →
      (msort le f l).Pairwise (fun a b => le a b = true)
  | _, [], _ => by simp [msort]
  | _, [a], _ => by simp [msort]
  | 0, a :: b :: t, hf => by simp at hf
  | f + 1, a :: b :: t, hf => by
    set l := a :: b :: t with hl
    simp only [msort]
    have hlen : l.length = t.length + 2 := by simp [hl]
    have h₁ : (l.take (l.length / 2)).length ≤ f := by
      simp only [List.length_take]
      simp only [hlen] at hf ⊢
      omega
    have h₂ : (l.drop (l.length / 2)).length ≤ f := by
      simp only [List.length_drop]
      simp only [hlen] at hf ⊢
      omega
    refine mergeFuel_pairwise le htrans htotal l.length _ _ ?_
      (msort_pairwise le htrans htotal f _ h₁) (msort_pairwise le htrans htotal f _ h₂)
    rw [length_msort, length_msort, List.length_take, List.length_drop]
    simp only [hlen]
    omega

theorem sortStable_perm (le : α → α → Bool) (l : List α) :
    List.Perm (sortStable le l) l :=
  msort_perm le l.length l

theorem sortStable_pairwise (le : α → α → Bool)
    (htrans : ∀ a b c, le a b = true → le b c = true → le a c = true)
    (htotal : ∀ a b, le a b = true ∨ le b a = true) (l : List α) :
    (sortStable le l).Pairwise (fun a b => le a b = true) :=
  msort_pairwise le htrans htotal l.length l (Nat.le_refl _)

theorem mergeFuel_of_le (le : α → α → Bool) :
    ∀ (f : Nat) (xs ys : List α), (∀ x ∈ xs, ∀ y ∈ ys, le x y = true) →
      mergeFuel le f xs ys = xs ++ ys
  | 0, xs, ys, _ => rfl
  | _ + 1, [], ys, _ => by simp [mergeFuel]
  | _ + 1, _ :: _, [], _ => by simp [mergeFuel]
  | f + 1, x :: xs, y :: ys, h => by
    have hxy : le x y = true := h x (by simp) y (by simp)
    simp only [mergeFuel, hxy, if_true, List.cons_append, List.cons.injEq, true_and]
    exact mergeFuel_of_le le f xs (y :: ys)
      (fun a ha b hb => h a (List.mem_cons_of_mem x ha) b hb)

theorem mergeFuel_of_not_le (le : α → α → Bool) :
    ∀ (f : Nat) (xs ys : List α), xs.length + ys.length ≤ f →
      (∀ x ∈ xs, ∀ y ∈ ys, le x y = false) →
      mergeFuel le f xs ys = ys ++ xs
  | 0, xs, ys, hf, _ => by
    have hx : xs = [] := List.eq_nil_of_length_eq_zero (by omega)
    have hy : ys = [] := List.eq_nil_of_length_eq_zero (by omega)
    subst hx; subst hy
    rfl
  | _ + 1, [], ys, _, _ => by simp [mergeFuel]
  | _ + 1, _ :: _, [], _, _ => by simp [mergeFuel]
  | f + 1, x :: xs, y :: ys, hf, h => by
    have hxy : le x y = false := h x (by simp) y (by simp)
    simp only [mergeFuel, hxy, Bool.false_eq_true, if_false, List.cons_append,
      List.cons.injEq, true_and]
    exact mergeFuel_of_not_le le f (x :: xs) ys (by simp at hf ⊢; omega)
      (fun a ha b hb => h a ha b (List.mem_cons_of_mem y hb))

theorem msort_of_sorted (le : α → α → Bool) :
    ∀ (f : Nat) (l : List α), l.Pairwise (fun a b => le a b = true) →
      msort le f l = l
  | _, [], _ => by simp [msort]
  | _, [a], _ => by simp [msort]
  | 0, _ :: _ :: _, _ => rfl
  | f + 1, a :: b :: t, h => by
    set l := a :: b :: t with hl
    simp only [msort]
    have hsplit := List.take_append_drop (l.length / 2) l
    have htake : (l.take (l.length / 2)).Pairwise (fun a b => le a b = true) :=
      List.Pairwise.sublist (List.take_sublist _ _) h
    have hdrop : (l.drop (l.length / 2)).Pairwise (fun a b => le a b = true) :=
      List.Pairwise.sublist (List.drop_sublist _ _) h
    have hcross : ∀ x ∈ l.take (l.length / 2), ∀ y ∈ l.drop (l.length / 2),
        le x y = true := by
      have h' := hsplit ▸ h
      exact (List.pairwise_append.mp h').2.2
    rw [msort_of_sorted le f _ htake, msort_of_sorted le f _ hdrop,
      mergeFuel_of_le le l.length _ _ hcross, hsplit]

theorem msort_of_antisorted (le : α → α → Bool) :
    ∀ (f : Nat) (l : List α), l.length ≤ f →
      l.Pairwise (fun a b => le a b = false) →
      msort le f l = l.reverse
  | _, [], _, _ => by simp [msort]
  | _, [a], _, _ => by simp [msort]
  | 0, a :: b :: t, hf, _ => by simp at hf
  | f + 1, a :: b :: t, hf, h => by
    set l := a :: b :: t with hl
    simp only [msort]
    have hlen : l.length = t.length + 2 := by simp [hl]
    have hsplit := List.take_append_drop (l.length / 2) l
    have htake : (l.take (l.length / 2)).Pairwise (fun a b => le a b = false) :=
      List.Pairwise.sublist (List.take_sublist _ _) h
    have hdrop : (l.drop (l.length / 2)).Pairwise (fun a b => le a b = false) :=
      List.Pairwise.sublist (List.drop_sublist _ _) h
    have hcross : ∀ x ∈ l.take (l.length / 2), ∀ y ∈ l.drop (l.length / 2),
        le x y = false := by
      have h' := hsplit ▸ h
      exact (List.pairwise_append.mp h').2.2
    have h₁ : (l.take (l.length / 2)).length ≤ f := by
      simp only [List.length_take]
      simp only [hlen] at hf ⊢
      omega
    have h₂ : (l.drop (l.length / 2)).length ≤ f := by
      simp only [List.length_drop]
      simp only [hlen] at hf ⊢
      omega
    rw [msort_of_antisorted le f _ h₁ htake, msort_of_antisorted le f _ h₂ hdrop,
      mergeFuel_of_not_le le l.length _ _ ?_ ?_]
    · rw [← List.reverse_append, hsplit]
    · rw [List.length_reverse, List.length_reverse, List.length_take, List.length_drop]
      simp only [hlen]
      omega
    · intro x hx y hy
      exact hcross x (List.mem_reverse.mp hx) y (List.mem_reverse.mp hy)

/-! ## Helper lemmas: association-list maps -/

theorem lookupKV_setKV_self {α : Type} :
    ∀ (m : List (String × α)) (k : String) (v : α),
      lookupKV (setKV m k v) k = some v
  | [], k, v => by simp [setKV, lookupKV]
  | p :: rest, k, v => by
    by_cases h : p.1 = k
    · simp [setKV, lookupKV, h]
    · simp [setKV, lookupKV, h, lookupKV_setKV_self rest k v]

theorem lookupKV_setKV_ne {α : Type} :
    ∀ (m : List (String × α)) (k k' : String) (v : α), k' ≠ k →
      lookupKV (setKV m k v) k' = lookupKV m k'
  | [], k, k', v, hne => by
    have hk : k ≠ k' := fun h => hne h.symm
    simp [setKV, lookupKV, hk]
  | p :: rest, k, k', v, hne => by
    by_cases h : p.1 = k
    · subst h
      have hk : p.1 ≠ k' := fun h => hne h.symm
      simp [setKV, lookupKV, hk]
    · simp only [setKV, h, if_false]
      by_cases h' : p.1 = k'
      · simp [lookupKV, h']
      · simp [lookupKV, h', lookupKV_setKV_ne rest k k' v hne]

theorem lookupKV_foldl_setKV_notMem {α β : Type} (value : β → α) :
    ∀ (items : List β) (key : β → String) (m : List (String × α)) (k : String),
      (∀ it ∈ items, key it ≠ k) →
      lookupKV (items.foldl (fun acc it => setKV acc (key it) (value it)) m) k =
        lookupKV m k
  | [], _, _, _, _ => rfl
  | it :: rest, key, m, k, h => by
    simp only [List.foldl_cons]
    rw [lookupKV_foldl_setKV_notMem value rest key _ k
      (fun a ha => h a (List.mem_cons_of_mem it ha))]
    exact lookupKV_setKV_ne m (key it) k (value it)
      (fun he => h it (List.mem_cons_self it rest) he.symm)

theorem lookupKV_foldl_setKV {α β : Type} (value : β → α) :
    ∀ (items : List β) (key : β → String) (m : List (String × α)) (it : β),
      it ∈ items → (items.map key).Nodup →
      lookupKV (items.foldl (fun acc x => setKV acc (key x) (value x)) m) (key it) =
        some (value it)
  | [], _, _, _, h, _ => absurd h (List.not_mem_nil _)
  | x :: rest, key, m, it, hmem, hnodup => by
    simp only [List.map_cons, List.nodup_cons] at hnodup
    rcases List.mem_cons.mp hmem with rfl | hmem
    · simp only [List.foldl_cons]
      rw [lookupKV_foldl_setKV_notMem value rest key _ (key it)
        (fun a ha he => hnodup.1 (he ▸ List.mem_map_of_mem key ha))]
      exact lookupKV_setKV_self m (key it) (value it)
    · simp only [List.foldl_cons]
      exact lookupKV_foldl_setKV value rest key _ it hmem hnodup.2

theorem lookupKV_perm {α : Type} {l₁ l₂ : List (String × α)}
    (hperm : List.Perm l₁ l₂) (hnodup : (l₁.map Prod.fst).Nodup) (k : String) :
    lookupKV l₁ k = lookupKV l₂ k := by
  induction hperm with
  | nil => rfl
  | cons x p ih =>
    simp only [List.map_cons, List.nodup_cons] at hnodup
    by_cases h : x.1 = k
    · simp [lookupKV, h]
    · simp [lookupKV, h, ih hnodup.2]
  | swap x y l =>
    simp only [List.map_cons, List.nodup_cons, List.mem_cons] at hnodup
    have hxy : y.1 ≠ x.1 := fun he => hnodup.1 (Or.inl he)
    have hyx : x.1 ≠ y.1 := fun he => hxy he.symm
    simp only [lookupKV]
    by_cases h₁ : y.1 = k
    · subst h₁
      simp [hyx]
    · by_cases h₂ : x.1 = k
      · simp [h₁, h₂]
      · simp [h₁, h₂]
  | trans p₁ p₂ ih₁ ih₂ =>
    have hnodup₂ := (p₁.map Prod.fst).nodup hnodup
    rw [ih₁ hnodup, ih₂ hnodup₂]

/-- A pairwise relation that holds for all pairs holds along any list. -/
theorem pairwise_of_total {α : Type} {R : α → α → Prop} (h : ∀ a b, R a b) :
    ∀ l : List α, l.Pairwise R
  | [] => List.Pairwise.nil
  | a :: rest => List.Pairwise.cons (fun b _ => h a b) (pairwise_of_total h rest)

theorem charListLt_irrefl : ∀ l : List Char, charListLt l l = false
  | [] => rfl
  | a :: as => by simp [charListLt, charListLt_irrefl as]

theorem ne_of_strLt {s t : String} (h : strLt s t = true) : s ≠ t := by
  intro he
  subst he
  rw [strLt, charListLt_irrefl] at h
  exact Bool.false_ne_true h

/-! ## The claims about the Change Classifier -/

/-- C2: every item whose comments-since list is non-empty classifies
COMMENTED (group C), whatever its timestamps and seen-state; every item
with an empty comments-since list that was previously seen classifies
UNCHANGED (group D). -/
theorem classifyItem_commented_unchanged :
    (∀ (p : Page) (w : Bool) (c : SlimComment) (cs : List SlimComment),
        classifyItem p (c :: cs) w = Group.C) ∧
    (∀ p : Page, classifyItem p [] true = Group.D) := by
  constructor
  · intro p w c cs
    simp [classifyItem]
  · intro p
    simp [classifyItem]

/-- C3: an unseen item with no comments since the watermark classifies
NEW (group A) when its two timestamps are equal and UPDATED (group B)
when it was edited strictly after creation. -/
theorem classify_new_vs_updated (p : Page) (c e : String)
    (hc : p.created_time = some c) (he : p.last_edited_time = some e) :
    (c = e → classifyItem p [] false = Group.A) ∧
    (strLt c e = true → classifyItem p [] false = Group.B) := by
  constructor
  · intro hce
    subst hce
    simp [classifyItem, hc, he]
  · intro hlt
    simp [classifyItem, hc, he, ne_of_strLt hlt]

/-- Witness for C3 at concrete unseen pages: equal timestamps give NEW,
a later edit timestamp gives UPDATED. -/
theorem classify_new_vs_updated_w :
    classifyItem pgEq [] false = Group.A ∧ classifyItem pgLt [] false = Group.B :=
  ⟨(classify_new_vs_updated pgEq _ _ rfl rfl).1 rfl,
   (classify_new_vs_updated pgLt _ _ rfl rfl).2 (by decide)⟩

/-- C10: an unseen, uncommented item lacking either timestamp always
classifies UPDATED (group B); classifying NEW (group A) requires both
timestamps present and equal. -/
theorem classify_new_requires_timestamps :
    (∀ p : Page, p.created_time = none ∨ p.last_edited_time = none →
        classifyItem p [] false = Group.B) ∧
    (∀ p : Page, classifyItem p [] false = Group.A →
        ∃ t, p.created_time = some t ∧ p.last_edited_time = some t) := by
  constructor
  · intro p h
    cases hc : p.created_time with
    | none =>
      cases he : p.last_edited_time <;> simp [classifyItem, hc, he]
    | some c =>
      cases he : p.last_edited_time with
      | none => simp [classifyItem, hc, he]
      | some e =>
        rcases h with h | h
        · rw [hc] at h; exact absurd h (by simp)
        · rw [he] at h; exact absurd h (by simp)
  · intro p h
    cases hc : p.created_time with
    | none =>
      rw [show classifyItem p [] false = Group.B from by
        cases he : p.last_edited_time <;> simp [classifyItem, hc, he]] at h
      exact absurd h (by simp)
    | some c =>
      cases he : p.last_edited_time with
      | none =>
        rw [show classifyItem p [] false = Group.B from by simp [classifyItem, hc, he]] at h
        exact absurd h (by simp)
      | some e =>
        by_cases hce : c = e
        · subst hce
          exact ⟨c, rfl, rfl⟩
        · rw [show classifyItem p [] false = Group.B from by
            simp [classifyItem, hc, he, hce]] at h
          exact absurd h (by simp)

/-- Witness for C10 at a concrete unseen page with no creation
timestamp: it classifies UPDATED. -/
theorem classify_new_requires_timestamps_w :
    classifyItem pgNoCreate [] false = Group.B :=
  classify_new_requires_timestamps.1 pgNoCreate (Or.inl rfl)

/-! ## The claims about the whole run and the checkpoint store -/

/-- C1: whenever the run fails — any surface scan error, any per-item
comment fetch error, or any other abort — no checkpoint write happens:
the persisted state file after the run is exactly the state file before
the run. -/
theorem run_error_preserves_checkpoint (gw : Gateway) (fuel : Nat) (now : String)
    (cfg : Config) (fs : Option FileContent) (e : Err)
    (h : (runAndPersist gw fuel now cfg fs).2 = .error e) :
    (runAndPersist gw fuel now cfg fs).1 = fs := by
  unfold runAndPersist at h ⊢
  cases hr : readJson fs with
  | error e' => simp [hr]
  | ok st =>
    simp only [hr] at h ⊢
    cases hm : mainBody gw fuel now cfg st with
    | error e' => simp [hm]
    | ok pr =>
      obtain ⟨r, st'⟩ := pr
      simp [hm] at h

/-- Witness for C1: a gateway whose first database call fails makes the
run abort with that error, and the state file is untouched. -/
theorem run_error_preserves_checkpoint_w :
    (runAndPersist gwErr 1 "2024-03-03" cfgAll (some (.valid stEmpty))).2 =
      .error (Err.api 500 "boom") ∧
    (runAndPersist gwErr 1 "2024-03-03" cfgAll (some (.valid stEmpty))).1 =
      some (.valid stEmpty) :=
  ⟨rfl, run_error_preserves_checkpoint gwErr 1 "2024-03-03" cfgAll
    (some (.valid stEmpty)) (Err.api 500 "boom") rfl⟩

/-- C6 (code-bug evidence): loading the checkpoint from an ABSENT store
does not return a default empty checkpoint — readJson propagates the
read failure, so the whole run aborts before any scan.  The
present-but-invalid store does fail as the claim says. -/
theorem readJson_absent_aborts :
    readJson none = .error Err.ioAbsent ∧
    (∀ gw fuel now cfg, (runAndPersist gw fuel now cfg none).2 = .error Err.ioAbsent) ∧
    readJson (some .invalid) = .error Err.parseError :=
  ⟨rfl, fun _ _ _ _ => rfl, rfl⟩

/-- C7 counterexample: starting from an existing file with content OLD
and writing content NEW, the write passes through the on-disk state of
an empty (truncated) file, which is neither the complete old content nor
the complete new content — fs.writeFile overwrites in place, there is no
write-to-temp-then-rename. -/
theorem writeJson_not_atomic_cex :
    ({ dirExists := true, file := some "" } : DiskState) ∈
      writeJsonStates { dirExists := true, file := some "OLD" } "NEW" ∧
    some "" ≠ some "OLD" ∧ some "" ≠ some "NEW" := by
  refine ⟨?_, by decide, by decide⟩
  simp [writeJsonStates]

/-- C7 amended: writeJson first creates any missing parent directory
(leaving the file untouched), then overwrites the file in place; when
the write completes the file holds exactly the new content, but the
replacement is not atomic — the truncated intermediate state is on the
trace. -/
theorem writeJson_amended (d : DiskState) (c : String) :
    (writeJsonStates d c).getD 1 d = { dirExists := true, file := d.file } ∧
    (writeJsonStates d c).getLast? = some { dirExists := true, file := some c } ∧
    ({ dirExists := true, file := some "" } : DiskState) ∈ writeJsonStates d c := by
  refine ⟨rfl, rfl, ?_⟩
  simp [writeJsonStates]

/-! ## The claims about the Surface Scanner's pagination -/

/-- The accumulated item count of a successful queryGo run never exceeds
the budget already reached or MAX_PAGES, provided the gateway never
returns more items than the requested page size. -/
theorem queryGo_length_le :
    ∀ (fuel : Nat) (gw : Nat → Nat → Except Err QueryResponse) (acc res : List Page),
      (∀ n ps r, gw n ps = .ok r → r.results.length ≤ ps) →
      queryGo gw fuel acc = .ok res → res.length ≤ max acc.length MAX_PAGES := by
  intro fuel
  induction fuel with
  | zero =>
    intro gw acc res hgw h
    unfold queryGo at h
    split at h
    · obtain rfl : acc = res := by simpa using h
      exact Nat.le_max_left _ _
    · simp at h
  | succ f ih =>
    intro gw acc res hgw h
    unfold queryGo at h
    split at h
    · obtain rfl : acc = res := by simpa using h
      exact Nat.le_max_left _ _
    · rename_i hlt
      have hlt' : acc.length < MAX_PAGES := Nat.lt_of_not_le (fun hle => hlt hle)
      cases hq : gw 0 (min PAGE_SIZE (MAX_PAGES - acc.length)) with
      | error e => rw [hq] at h; simp at h
      | ok r =>
        rw [hq] at h
        have hr : r.results.length ≤ min PAGE_SIZE (MAX_PAGES - acc.length) :=
          hgw 0 _ r hq
        have hacc2 : (acc ++ r.results).length ≤ MAX_PAGES := by
          rw [List.length_append]
          have := Nat.min_le_right PAGE_SIZE (MAX_PAGES - acc.length)
          omega
        simp only [] at h
        split at h
        · obtain rfl : acc ++ r.results = res := by simpa using h
          exact Nat.le_trans hacc2 (Nat.le_max_right _ _)
        · split at h
          · obtain rfl : acc ++ r.results = res := by simpa using h
            exact Nat.le_trans hacc2 (Nat.le_max_right _ _)
          · have := ih (fun n ps => gw (n + 1) ps) (acc ++ r.results) res
              (fun n ps r' hr' => hgw (n + 1) ps r' hr') h
            have hm : max (acc ++ r.results).length MAX_PAGES = MAX_PAGES := by
              rw [List.length_append] at hacc2 ⊢
              omega
            rw [hm] at this
            exact Nat.le_trans this (Nat.le_max_right _ _)

set_option maxRecDepth 40000 in
/-- C5 counterexample: a surface holding 250 items across five pages of
fifty.  Under the claim's 200-PAGE safety cap the loop would stop only
at the fifth page (where the gateway reports no further pages) and
return all 250 items; the source's loop instead compares the accumulated
ITEM count against MAX_PAGES = 200 and stops after four pages with 200
items. -/
theorem queryDataSource_item_budget_cex :
    Except.map List.length (queryDataSource gwBig 10) = .ok 200 ∧
    Except.map List.length (queryDataSourceSpec gwBig) = .ok 250 := by
  constructor <;> rfl

set_option maxRecDepth 40000 in
/-- C5 amended: the pagination loop accumulates successive gateway pages
and stops when the gateway reports no further pages or when the
200-item safety budget is reached (the final request is shrunk so the
accumulated total never exceeds the budget, for a gateway honouring the
requested page size); reaching the budget is not an error.  A surface
with 120 items across a page size of 50 returns all 120 items. -/
theorem queryDataSource_amended :
    queryDataSource gw120 10 = .ok pages120 ∧
    (∀ (gw : Nat → Nat → Except Err QueryResponse) (fuel : Nat) (res : List Page),
        (∀ n ps r, gw n ps = .ok r → r.results.length ≤ ps) →
        queryDataSource gw fuel = .ok res → res.length ≤ MAX_PAGES) := by
  constructor
  · rfl
  · intro gw fuel res hgw h
    have := queryGo_length_le fuel gw [] res hgw h
    simpa using this

/-- Witness for C5: the concrete 120-item gateway honours every
requested page size, and the amended cap theorem applies to its run. -/
theorem queryDataSource_amended_w : pages120.length ≤ MAX_PAGES :=
  queryDataSource_amended.2 gw120 10 pages120
    (fun n ps r hr => by
      simp only [gw120, Except.ok.injEq] at hr
      subst hr
      simp [Nat.min_le_left ps (120 - 50 * n)])
    queryDataSource_amended.1

/-! ## The claims about the per-item comment fetch -/

/-- Walking a complete pagination chain, the comment loop accumulates
exactly the filter-passing comments of every page. -/
theorem commentsGo_chain :
    ∀ (pages : List CommentsResponse) (d : CommentsResponse) (since : Option String)
      (acc : List RawComment), goodChain pages = true →
      commentsGo (gwOfPages pages d) since pages.length acc =
        .ok (acc ++ (pages.flatMap (fun r => r.results)).filter (commentKeep since))
  | [], _, _, _, h => by simp [goodChain] at h
  | [r], d, since, acc, h => by
    have hm : r.has_more = false := by
      simpa [goodChain] using h
    simp [commentsGo, gwOfPages, hm]
  | r :: r2 :: rest, d, since, acc, h => by
    have hh : r.has_more = true ∧ goodChain (r2 :: rest) = true := by
      simpa [goodChain] using h
    have hstep : commentsGo (gwOfPages (r :: r2 :: rest) d) since
          ((r2 :: rest).length + 1) acc =
        commentsGo (gwOfPages (r2 :: rest) d) since (r2 :: rest).length
          (acc ++ r.results.filter (commentKeep since)) := by
      rw [commentsGo]
      simp only [gwOfPages, List.getD_cons_zero, hh.1, Bool.true_eq_false, if_false]
      rfl
    rw [List.length_cons, hstep, commentsGo_chain (r2 :: rest) d since _ hh.2]
    simp [List.filter_append, List.append_assoc]

/-- C8 counterexample: with a watermark present the source keeps a
comment that has no createdAt (line 146 keeps on !created), while the
claim's filter — keeping exactly the comments whose createdAt is ≥ the
watermark — would drop it. -/
theorem getCommentsSince_missing_created_cex :
    getCommentsSince gwCommentsOne (some "2024-01-01") 1 = .ok [cNoTime] ∧
    commentKeepSpec (some "2024-01-01") cNoTime = false := by
  constructor <;> rfl

/-- C8 amended: over a complete pagination chain the per-item comment
fetch returns every comment of every gateway page that passes the
client-side filter, and that filter keeps a comment exactly when there
is no watermark, or the comment has no createdAt, or its createdAt is ≥
the watermark. -/
theorem getCommentsSince_filter (pages : List CommentsResponse) (d : CommentsResponse)
    (since : Option String) (h : goodChain pages = true) :
    getCommentsSince (gwOfPages pages d) since pages.length =
      .ok ((pages.flatMap (fun r => r.results)).filter (commentKeep since)) := by
  have := commentsGo_chain pages d since [] h
  simpa [getCommentsSince] using this

/-- Witness for C8: the two-page chain of chainPages is complete, and
the fetch with a watermark between the two comment timestamps returns
exactly the filter-passing comments of both pages. -/
theorem getCommentsSince_filter_w :
    getCommentsSince
        (gwOfPages chainPages { results := [], has_more := false, next_cursor := none })
        (some "2024-02-15") chainPages.length =
      .ok ((chainPages.flatMap (fun r => r.results)).filter
        (commentKeep (some "2024-02-15"))) :=
  getCommentsSince_filter chainPages
    { results := [], has_more := false, next_cursor := none }
    (some "2024-02-15") (by decide)

/-! ## The claim about the Report Builder -/

/-- C9: the Report Builder is deterministic with respect to the order in
which the surface scans complete: given the same keyed scan results in
any two arrival orders (no duplicate surface keys), it builds the same
Report, because the results are consumed through surface-key lookup in
the fixed configured surface order, never through arrival order. -/
theorem buildReport_arrival_order (surfaces : List Surface) (state : StateJson)
    (scans scans2 : List (String × ScannedSurface)) (now : String)
    (lastRun : Option String) (hperm : List.Perm scans scans2)
    (hnodup : (scans.map Prod.fst).Nodup) :
    buildReport surfaces state scans now lastRun =
      buildReport surfaces state scans2 now lastRun := by
  unfold buildReport
  simp only [Report.mk.injEq, true_and]
  apply List.filterMap_congr
  intro s _
  rw [lookupKV_perm hperm hnodup s.key]

/-- Witness for C9: the two concrete arrival orders of the same two scan
results build the same report. -/
theorem buildReport_arrival_order_w :
    buildReport (mkSurfaces cfgAll) stEmpty arrivalsA "2024-03-03" none =
      buildReport (mkSurfaces cfgAll) stEmpty arrivalsB "2024-03-03" none :=
  buildReport_arrival_order (mkSurfaces cfgAll) stEmpty arrivalsA arrivalsB
    "2024-03-03" none
    (List.Perm.swap ("EventsQueue", scW2) ("Tasks", scW1) [])
    (by decide)

/-! ## The claims about the Checkpoint Committer -/

theorem seenCmpLe_trans (a b c : String × String)
    (h₁ : seenCmpLe a b = true) (h₂ : seenCmpLe b c = true) : seenCmpLe a c = true :=
  strLe_trans h₂ h₁

theorem seenCmpLe_total (a b : String × String) :
    seenCmpLe a b = true ∨ seenCmpLe b a = true :=
  strLe_total b.2 a.2

/-- C4 amended: the committer writes
seenIds[surface][item.id] := item.lastEditedAt (falling back to the
run's ranAt timestamp) for every classified item across all four groups,
then truncates the surface's map to the 2000-entry retention cap by
dropping the entries with the oldest timestamps first; entries with
EQUAL timestamps are kept in their existing map order (the sort is
stable) — ties are NOT broken by identifier.  At most cap-count entries
remain (exactly cap-count when the merged map is at least that large),
every retained entry comes from the merged map, and every dropped
entry's timestamp is at most every retained entry's timestamp. -/
theorem commit_retention (prev : SeenMap) (g : Groups) (ranAt : String)
    (hids : ((groupsConcat g).map ReportItem.id).Nodup) :
    (∀ it ∈ groupsConcat g,
        lookupKV (mergeSurfaceSeen prev g ranAt) it.id =
          some (it.last_edited_time.getD ranAt)) ∧
    (commitSurface prev g ranAt).length ≤ RETENTION_CAP ∧
    (RETENTION_CAP ≤ (mergeSurfaceSeen prev g ranAt).length →
        (commitSurface prev g ranAt).length = RETENTION_CAP) ∧
    (∀ a ∈ commitSurface prev g ranAt, a ∈ mergeSurfaceSeen prev g ranAt) ∧
    (∀ a ∈ commitSurface prev g ranAt, ∀ b ∈ mergeSurfaceSeen prev g ranAt,
        b ∉ commitSurface prev g ranAt → strLe b.2 a.2 = true) := by
  have hlen : (sortStable seenCmpLe (mergeSurfaceSeen prev g ranAt)).length =
      (mergeSurfaceSeen prev g ranAt).length :=
    (sortStable_perm seenCmpLe (mergeSurfaceSeen prev g ranAt)).length_eq
  refine ⟨?_, ?_, ?_, ?_, ?_⟩
  · intro it hmem
    exact lookupKV_foldl_setKV (fun x => x.last_edited_time.getD ranAt)
      (groupsConcat g) ReportItem.id prev it hmem hids
  · rw [commitSurface, truncateSeen, List.length_take]
    exact Nat.min_le_left _ _
  · intro hge
    rw [commitSurface, truncateSeen, List.length_take, hlen]
    omega
  · intro a ha
    rw [commitSurface, truncateSeen] at ha
    exact (sortStable_perm seenCmpLe _).mem_iff.mp (List.take_subset _ _ ha)
  · intro a ha b hb hbn
    have hsort := sortStable_pairwise seenCmpLe seenCmpLe_trans seenCmpLe_total
      (mergeSurfaceSeen prev g ranAt)
    rw [← List.take_append_drop RETENTION_CAP
      (sortStable seenCmpLe (mergeSurfaceSeen prev g ranAt))] at hsort
    have hsplit := List.pairwise_append.mp hsort
    have hbs : b ∈ sortStable seenCmpLe (mergeSurfaceSeen prev g ranAt) :=
      (sortStable_perm seenCmpLe _).mem_iff.mpr hb
    rw [← List.take_append_drop RETENTION_CAP
      (sortStable seenCmpLe (mergeSurfaceSeen prev g ranAt)), List.mem_append] at hbs
    rw [commitSurface, truncateSeen] at ha hbn
    rcases hbs with hbs | hbs
    · exact absurd hbs hbn
    · exact hsplit.2.2 a ha b hbs

/-- Witness for C4 at a small concrete commit: both items of groupsW are
recorded (itemB through the ranAt fallback) and the truncated map
respects the cap. -/
theorem commit_retention_w :
    lookupKV (mergeSurfaceSeen [] groupsW "2024-03-03") "page-a" = some "2024-02-01" ∧
    lookupKV (mergeSurfaceSeen [] groupsW "2024-03-03") "page-b" = some "2024-03-03" ∧
    (commitSurface [] groupsW "2024-03-03").length ≤ RETENTION_CAP := by
  obtain ⟨h1, h2, -, -, -⟩ := commit_retention [] groupsW "2024-03-03" (by decide)
  refine ⟨?_, ?_, h2⟩
  · exact h1 itemA (by simp [groupsConcat, groupsW])
  · exact h1 itemB (by simp [groupsConcat, groupsW])

/-- The committed map of the all-tied 2001-entry example: the stable
sort leaves the insertion order unchanged, so the first 2000 entries by
insertion order are kept. -/
theorem truncateSeen_exSeen :
    truncateSeen exSeen2001 = (List.range 2000).map (fun i => (uid i, "T")) := by
  have hpw : exSeen2001.Pairwise (fun a b => seenCmpLe a b = true) := by
    rw [exSeen2001, List.pairwise_map]
    exact pairwise_of_total (fun i j => strLe_refl "T") _
  rw [truncateSeen, sortStable, msort_of_sorted seenCmpLe _ _ hpw, exSeen2001,
    ← List.map_take, List.take_range]
  norm_num [RETENTION_CAP]

/-- The spec-tiebreak map of the same example: identifier-descending
order reverses the insertion order, so the first entry of the map (the
smallest identifier) is the one dropped. -/
theorem truncateSeenSpec_exSeen :
    truncateSeenSpec exSeen2001 =
      ((List.range 2000).map (fun i => (uid (i + 1), "T"))).reverse := by
  have hpw : exSeen2001.Pairwise (fun a b => specTieLe a b = false) := by
    rw [exSeen2001, List.pairwise_map]
    refine (List.pairwise_lt_range 2001).imp ?_
    intro i j hij
    simp only [specTieLe, if_pos rfl]
    exact uid_not_le hij
  have hlen : exSeen2001.length = 2001 := by
    rw [exSeen2001, List.length_map, List.length_range]
  rw [truncateSeenSpec, sortStable,
    msort_of_antisorted specTieLe _ _ (Nat.le_refl _) hpw,
    List.take_reverse, hlen]
  rw [exSeen2001, ← List.map_drop]
  have hdrop : List.drop (2001 - RETENTION_CAP) (List.range 2001) =
      List.map Nat.succ (List.range 2000) := by
    have h1 : 2001 - RETENTION_CAP = 1 := by norm_num [RETENTION_CAP]
    rw [h1, List.range_succ_eq_map]
    rfl
  rw [hdrop, List.map_map]
  rfl

/-- C4 counterexample: a merged surface map of 2001 entries that all
carry the same timestamp, inserted in identifier-ascending order.  The
claim's truncation (ties broken by identifier, descending) would drop
exactly the smallest identifier uid 0 and keep uid 2000; the source's
stable sort keeps the first 2000 entries in insertion order, keeping
uid 0 and dropping uid 2000.  The two results differ. -/
theorem commit_tiebreak_cex :
    truncateSeen exSeen2001 ≠ truncateSeenSpec exSeen2001 ∧
    (uid 0, "T") ∈ truncateSeen exSeen2001 ∧
    (uid 2000, "T") ∉ truncateSeen exSeen2001 ∧
    (uid 2000, "T") ∈ truncateSeenSpec exSeen2001 ∧
    (uid 0, "T") ∉ truncateSeenSpec exSeen2001 := by
  have hmem0 : (uid 0, "T") ∈ truncateSeen exSeen2001 := by
    rw [truncateSeen_exSeen]
    exact List.mem_map_of_mem _ (List.mem_range.mpr (by norm_num))
  have hnot2000 : (uid 2000, "T") ∉ truncateSeen exSeen2001 := by
    rw [truncateSeen_exSeen]
    intro h
    obtain ⟨i, hi, he⟩ := List.mem_map.mp h
    have hid : uid i = uid 2000 := congrArg Prod.fst he
    have hi2 := uid_inj hid
    have := List.mem_range.mp hi
    omega
  have hmem2000 : (uid 2000, "T") ∈ truncateSeenSpec exSeen2001 := by
    rw [truncateSeenSpec_exSeen, List.mem_reverse]
    exact List.mem_map_of_mem (fun i => (uid (i + 1), "T"))
      (List.mem_range.mpr (show 1999 < 2000 by norm_num))
  have hnot0 : (uid 0, "T") ∉ truncateSeenSpec exSeen2001 := by
    rw [truncateSeenSpec_exSeen, List.mem_reverse]
    intro h
    obtain ⟨i, hi, he⟩ := List.mem_map.mp h
    have hid : uid (i + 1) = uid 0 := congrArg Prod.fst he
    have := uid_inj hid
    omega
  refine ⟨?_, hmem0, hnot2000, hmem2000, hnot0⟩
  intro he
  exact hnot2000 (he ▸ hmem2000)

end Sweeper
